import Mathlib

/-!
# Task board state core of `src/App.js`

A shallow embedding of the state-management core of the kanban board in
`src/src/App.js`: the `useLocalStorage` hook (initial-state loader and the
write-through setter) and the four board operations `addTask`, `deleteTask`,
`updateTask`, `transferTask` together with the `useEffect` that recomputes the
per-list views.

The platform pieces the source calls into (`JSON.stringify`, `JSON.parse`,
`localStorage`, the `useState` setter) are modelled explicitly in the first part
of the file; the value read from `Date.now()` is a parameter of `addTask`.
Numbers are exact decimals (no rounding to doubles), and strings are sequences
of Unicode characters.
-/

set_option autoImplicit false

namespace Todo

/-! ## JavaScript values -/

/-- JavaScript data values, as far as JSON text can denote them, plus `undefined`.
A number `number m s` stands for `m / 10 ^ s`; integers have `s = 0` (the Task
fields `id` and `listId` are integers). Objects keep their properties in
insertion order. -/
inductive JsValue where
  | undefined
  | null
  | bool (b : Bool)
  | number (mantissa : Int) (scale : Nat)
  | string (s : String)
  | array (elems : List JsValue)
  | object (props : List (String × JsValue))

/-- Exceptions the modelled platform calls can raise. -/
inductive JsError where
  | syntaxError
  | securityError
  | quotaExceededError
  deriving DecidableEq, Repr

/-- An integer as a JavaScript number. -/
def JsValue.int (n : Int) : JsValue := .number n 0

/-! ## `JSON.stringify` -/

namespace JSON

/-- Lower-case hexadecimal digit of a value below 16. -/
def hexDigit (n : Nat) : Char :=
  if n < 10 then Char.ofNat (48 + n) else Char.ofNat (87 + n)

/-- One character of a string inside `QuoteJSONString`. -/
def quoteChar (c : Char) : List Char :=
  if c = '"' then ['\\', '"']
  else if c = '\\' then ['\\', '\\']
  else if c = '\x08' then ['\\', 'b']
  else if c = '\x0c' then ['\\', 'f']
  else if c = '\n' then ['\\', 'n']
  else if c = '\r' then ['\\', 'r']
  else if c = '\t' then ['\\', 't']
  else if c.toNat < 32 then
    ['\\', 'u', '0', '0', hexDigit (c.toNat / 16), hexDigit (c.toNat % 16)]
  else [c]

/-- The abstract operation `QuoteJSONString`. -/
def quote (s : String) : List Char :=
  '"' :: (s.toList.flatMap quoteChar ++ ['"'])

/-- Drops the zeros at the end of a digit sequence. -/
def stripTrailingZeros (ds : List Char) : List Char :=
  (ds.reverse.dropWhile (fun c => c == '0')).reverse

/-- The abstract operation `Number::toString` (radix 10) on `m / 10 ^ s`. -/
def numberToString (m : Int) (s : Nat) : List Char :=
  if m = 0 then ['0']
  else
    let sign : List Char := if m < 0 then ['-'] else []
    let all := (Nat.repr m.natAbs).toList
    let ds := stripTrailingZeros all
    let k : Int := ds.length
    let n : Int := (all.length : Int) - (s : Int)
    if k ≤ n ∧ n ≤ 21 then
      sign ++ ds ++ List.replicate (n - k).toNat '0'
    else if 0 < n ∧ n ≤ 21 then
      sign ++ ds.take n.toNat ++ '.' :: ds.drop n.toNat
    else if -6 < n ∧ n ≤ 0 then
      sign ++ '0' :: '.' :: (List.replicate (-n).toNat '0' ++ ds)
    else
      let e := n - 1
      let esign : Char := if e < 0 then '-' else '+'
      let edigits := (Nat.repr e.natAbs).toList
      if ds.length = 1 then sign ++ ds ++ 'e' :: esign :: edigits
      else sign ++ ds.take 1 ++ '.' :: (ds.drop 1 ++ 'e' :: esign :: edigits)

/-- Joins serialized pieces with commas. -/
def commaJoin : List (List Char) → List Char
  | [] => []
  | [x] => x
  | x :: y :: rest => x ++ ',' :: commaJoin (y :: rest)

mutual
/-- The abstract operation `SerializeJSONProperty`: `none` is `undefined`. -/
def serialize : JsValue → Option (List Char)
  | .undefined => none
  | .null => some ['n', 'u', 'l', 'l']
  | .bool true => some ['t', 'r', 'u', 'e']
  | .bool false => some ['f', 'a', 'l', 's', 'e']
  | .number m s => some (numberToString m s)
  | .string s => some (quote s)
  | .array elems => some ('[' :: (commaJoin (serializeElems elems) ++ [']']))
  | .object props => some ('\x7b' :: (commaJoin (serializeProps props) ++ ['\x7d']))
/-- Array elements: an element without a serialization is written `null`. -/
def serializeElems : List JsValue → List (List Char)
  | [] => []
  | v :: rest => (serialize v).getD ['n', 'u', 'l', 'l'] :: serializeElems rest
/-- Object properties: a property without a serialization is left out. -/
def serializeProps : List (String × JsValue) → List (List Char)
  | [] => []
  | (k, v) :: rest =>
    match serialize v with
    | none => serializeProps rest
    | some txt => (quote k ++ ':' :: txt) :: serializeProps rest
end

/-- The built-in `JSON.stringify(value)` for a data value; `none` is the result `undefined`. -/
def stringify (v : JsValue) : Option String :=
  (serialize v).map String.mk

end JSON

/-! ## `JSON.parse` -/

namespace JSON

/-- JSON white space. -/
def isWs (c : Char) : Bool :=
  c == ' ' || c == '\t' || c == '\n' || c == '\r'

/-- Skips leading white space. -/
def skipWs : List Char → List Char
  | [] => []
  | c :: cs => if isWs c then skipWs cs else c :: cs

/-- Value of a hexadecimal digit. -/
def hexVal (c : Char) : Option Nat :=
  if '0' ≤ c ∧ c ≤ '9' then some (c.toNat - 48)
  else if 'a' ≤ c ∧ c ≤ 'f' then some (c.toNat - 87)
  else if 'A' ≤ c ∧ c ≤ 'F' then some (c.toNat - 55)
  else none

/-- The UTF-16 code units of a character. -/
def utf16Units (c : Char) : List Nat :=
  if c.toNat < 65536 then [c.toNat]
  else [55296 + (c.toNat - 65536) / 1024, 56320 + (c.toNat - 65536) % 1024]

/-- Reads UTF-16 code units back as characters; a surrogate without its partner
has no counterpart among Lean characters and is read as U+FFFD. -/
def decodeUtf16 : List Nat → List Char
  | [] => []
  | [u] => [if 55296 ≤ u ∧ u < 57344 then Char.ofNat 65533 else Char.ofNat u]
  | u :: v :: rest =>
    if 55296 ≤ u ∧ u < 56320 ∧ 56320 ≤ v ∧ v < 57344 then
      Char.ofNat (65536 + (u - 55296) * 1024 + (v - 56320)) :: decodeUtf16 rest
    else
      (if 55296 ≤ u ∧ u < 57344 then Char.ofNat 65533 else Char.ofNat u)
        :: decodeUtf16 (v :: rest)

/-- The characters of a string literal after its opening quote, up to and
including the closing quote, as UTF-16 code units (newest first in `acc`). -/
def parseStringBody : List Char → List Nat → Option (String × List Char)
  | [], _ => none
  | c :: cs, acc =>
    if c = '"' then some (String.mk (decodeUtf16 acc.reverse), cs)
    else if c = '\\' then
      match cs with
      | [] => none
      | e :: cs1 =>
        if e = '"' then parseStringBody cs1 (34 :: acc)
        else if e = '\\' then parseStringBody cs1 (92 :: acc)
        else if e = '/' then parseStringBody cs1 (47 :: acc)
        else if e = 'b' then parseStringBody cs1 (8 :: acc)
        else if e = 'f' then parseStringBody cs1 (12 :: acc)
        else if e = 'n' then parseStringBody cs1 (10 :: acc)
        else if e = 'r' then parseStringBody cs1 (13 :: acc)
        else if e = 't' then parseStringBody cs1 (9 :: acc)
        else if e = 'u' then
          match cs1 with
          | h1 :: h2 :: h3 :: h4 :: cs2 =>
            match hexVal h1, hexVal h2, hexVal h3, hexVal h4 with
            | some a, some b, some c, some d =>
              parseStringBody cs2 ((((a * 16 + b) * 16 + c) * 16 + d) :: acc)
            | _, _, _, _ => none
          | _ => none
        else none
    else if c.toNat < 32 then none
    else parseStringBody cs ((utf16Units c).reverse ++ acc)

/-- Splits off the leading decimal digits. -/
def takeDigits : List Char → List Char × List Char
  | [] => ([], [])
  | c :: cs =>
    if c.isDigit then ((takeDigits cs).1.cons c, (takeDigits cs).2) else ([], c :: cs)

/-- Value of a sequence of decimal digits. -/
def digitsToNat (ds : List Char) : Nat :=
  ds.foldl (fun acc c => acc * 10 + (c.toNat - 48)) 0

/-- Brings `m / 10 ^ s` to lowest terms in the scale. -/
def normNumber (m : Int) : Nat → JsValue
  | 0 => .number m 0
  | s + 1 => if m % 10 = 0 then normNumber (m / 10) s else .number m (s + 1)

/-- Optional exponent part of a number literal: the exponent and the rest. -/
def parseExponent (cs : List Char) : Option (Int × List Char) :=
  match cs with
  | c :: cs1 =>
    if c = 'e' ∨ c = 'E' then
      let (neg, cs2) : Bool × List Char :=
        match cs1 with
        | s :: r => if s = '-' then (true, r) else if s = '+' then (false, r) else (false, cs1)
        | [] => (false, cs1)
      match takeDigits cs2 with
      | ([], _) => none
      | (ds, rest) =>
        some (if neg then -(digitsToNat ds : Int) else (digitsToNat ds : Int), rest)
    else some (0, cs)
  | [] => some (0, cs)

/-- A JSON number literal at the head of the text. -/
def parseNumber (cs : List Char) : Option (JsValue × List Char) :=
  let (neg, cs1) : Bool × List Char :=
    match cs with
    | c :: r => if c = '-' then (true, r) else (false, cs)
    | [] => (false, cs)
  match takeDigits cs1 with
  | ([], _) => none
  | (ip, cs2) =>
    if ip.length > 1 ∧ ip.head? = some '0' then none
    else
      let fracPart : Option (List Char × List Char) :=
        match cs2 with
        | c :: r =>
          if c = '.' then
            match takeDigits r with
            | ([], _) => none
            | (fp, rest) => some (fp, rest)
          else some ([], cs2)
        | [] => some ([], cs2)
      match fracPart with
      | none => none
      | some (fp, cs3) =>
        match parseExponent cs3 with
        | none => none
        | some (ex, cs4) =>
          let mag : Int := digitsToNat (ip ++ fp)
          let m : Int := if neg then -mag else mag
          let e : Int := ex - (fp.length : Int)
          some (if 0 ≤ e then .number (m * 10 ^ e.toNat) 0 else normNumber m (-e).toNat, cs4)

/-- Defines a property: a repeated name keeps its place and takes the new value. -/
def setProp (k : String) (v : JsValue) : List (String × JsValue) → List (String × JsValue)
  | [] => [(k, v)]
  | (k1, v1) :: rest => if k1 = k then (k, v) :: rest else (k1, v1) :: setProp k v rest

mutual
/-- A JSON value at the head of the text, with the text left over. -/
def parseValue : Nat → List Char → Option (JsValue × List Char)
  | 0, _ => none
  | fuel + 1, cs =>
    match skipWs cs with
    | 'n' :: 'u' :: 'l' :: 'l' :: r => some (.null, r)
    | 't' :: 'r' :: 'u' :: 'e' :: r => some (.bool true, r)
    | 'f' :: 'a' :: 'l' :: 's' :: 'e' :: r => some (.bool false, r)
    | '"' :: r => (parseStringBody r []).map (fun p => (JsValue.string p.1, p.2))
    | '[' :: r =>
      match skipWs r with
      | ']' :: r1 => some (.array [], r1)
      | r1 => parseElements fuel r1 []
    | '\x7b' :: r =>
      match skipWs r with
      | '\x7d' :: r1 => some (.object [], r1)
      | r1 => parseMembers fuel r1 []
    | cs1 => parseNumber cs1
/-- The elements of an array after `[`, up to and including `]`. -/
def parseElements : Nat → List Char → List JsValue → Option (JsValue × List Char)
  | 0, _, _ => none
  | fuel + 1, cs, acc =>
    match parseValue fuel cs with
    | none => none
    | some (v, r) =>
      match skipWs r with
      | ',' :: r1 => parseElements fuel r1 (acc ++ [v])
      | ']' :: r1 => some (.array (acc ++ [v]), r1)
      | _ => none
/-- The members of an object after the opening brace, up to and including the
closing brace. -/
def parseMembers : Nat → List Char → List (String × JsValue) → Option (JsValue × List Char)
  | 0, _, _ => none
  | fuel + 1, cs, acc =>
    match skipWs cs with
    | '"' :: r =>
      match parseStringBody r [] with
      | none => none
      | some (k, r1) =>
        match skipWs r1 with
        | ':' :: r2 =>
          match parseValue fuel r2 with
          | none => none
          | some (v, r3) =>
            match skipWs r3 with
            | ',' :: r4 => parseMembers fuel r4 (setProp k v acc)
            | '\x7d' :: r4 => some (.object (setProp k v acc), r4)
            | _ => none
        | _ => none
    | _ => none
end

/-- The built-in `JSON.parse(text)`: the denoted value, or a `SyntaxError`. The recursion
budget `2 * length + 2` exceeds the nesting any text of that length can have. -/
def parse (text : String) : Except JsError JsValue :=
  match parseValue (2 * text.length + 2) text.toList with
  | some (v, rest) => if skipWs rest = [] then .ok v else .error .syntaxError
  | none => .error .syntaxError

end JSON

/-! ## `localStorage` -/

/-- The browser's `localStorage`: the stored items, whether the page may use the
store at all (a store that denies access raises on any use), and whether it
accepts writes (a store that is full raises on `setItem`). -/
structure Storage where
  items : List (String × String)
  accessible : Bool
  writable : Bool

namespace Storage

/-- Writes an entry: an existing key takes the new text, a new key is added. -/
def setEntry (key text : String) : List (String × String) → List (String × String)
  | [] => [(key, text)]
  | (k, v) :: rest => if k = key then (key, text) :: rest else (k, v) :: setEntry key text rest

/-- The call `localStorage.getItem(key)`: the stored text, `none` for JavaScript `null`. -/
def getItem (st : Storage) (key : String) : Except JsError (Option String) :=
  if st.accessible then .ok (st.items.lookup key) else .error .securityError

/-- The call `localStorage.setItem(key, value)` with `value` already converted to text. -/
def setItem (st : Storage) (key text : String) : Except JsError Storage :=
  if st.accessible then
    if st.writable then .ok { st with items := setEntry key text st.items }
    else .error .quotaExceededError
  else .error .securityError

end Storage

/-- Conversion of the second argument of `setItem` to text: `undefined` becomes
the nine characters `undefined`. -/
def toDOMString : Option String → String
  | some text => text
  | none => "undefined"

/-! ## The `useLocalStorage` hook (App.js lines 4-24) -/

/-- The argument handed to a `useState` setter: a plain value, or an updater
function that React applies to the previous state. -/
inductive SetStateAction (α : Type) where
  | value (v : α)
  | updater (f : α → α)

/-- The state a `useState` setter installs. -/
def SetStateAction.apply {α : Type} : SetStateAction α → α → α
  | .value v, _ => v
  | .updater f, prev => f prev

/-- What `JSON.stringify` returns for the setter's argument: the serialization of
a data value, `undefined` (`none`) for a function. -/
def SetStateAction.stringify {α : Type} (toJs : α → JsValue) :
    SetStateAction α → Option String
  | .value v => JSON.stringify (toJs v)
  | .updater _ => none

/-- What the hook owns and touches: its `storedValue` state, the global
`localStorage`, and the messages sent to `console.error`. -/
structure HookState (α : Type) where
  storedValue : α
  storage : Storage
  console : List (String × JsError)

namespace useLocalStorage

/-- The lazy initial state of `useLocalStorage` (lines 5-12):
`try { item = getItem(key); return item ? JSON.parse(item) : initialValue }
catch { return initialValue }`. -/
def init (storage : Storage) (key : String) (initialValue : JsValue) : JsValue :=
  match storage.getItem key with
  | .error _ => initialValue
  | .ok none => initialValue
  | .ok (some item) =>
    if item = "" then initialValue
    else
      match JSON.parse item with
      | .ok v => v
      | .error _ => initialValue

/-- The `try` block of `setStoredValueAndLocalStorage` (lines 16-17): the state
it leaves behind and the exception it raised, if any. -/
def setStoredValueAndLocalStorage.tryBlock {α : Type} (toJs : α → JsValue) (key : String)
    (value : SetStateAction α) (s : HookState α) : HookState α × Option JsError :=
  let s1 : HookState α := { s with storedValue := value.apply s.storedValue }
  match s1.storage.setItem key (toDOMString (value.stringify toJs)) with
  | .ok storage1 => ({ s1 with storage := storage1 }, none)
  | .error e => (s1, some e)

/-- The setter returned by the hook (lines 14-21): the `try` block, and in the
`catch` a `console.error`. -/
def setStoredValueAndLocalStorage {α : Type} (toJs : α → JsValue) (key : String)
    (value : SetStateAction α) (s : HookState α) : HookState α :=
  match setStoredValueAndLocalStorage.tryBlock toJs key value s with
  | (s1, none) => s1
  | (s1, some e) =>
    { s1 with console := s1.console ++ [("Error saving to localStorage:", e)] }

end useLocalStorage

/-! ## The board (App.js lines 27-78) -/

/-- A task record `{ id, name, completed, listId }`. -/
structure Task where
  id : Int
  name : String
  completed : Bool
  listId : Int
  deriving DecidableEq, Repr

/-- A list record `{ id, name, tasks }`. -/
structure BoardList where
  id : Int
  name : String
  tasks : List Task
  deriving DecidableEq, Repr

/-- A task as a JavaScript object, properties in the order of the literal. -/
def Task.toJs (t : Task) : JsValue :=
  .object [("id", .int t.id), ("name", .string t.name),
    ("completed", .bool t.completed), ("listId", .int t.listId)]

/-- The flat task collection as a JavaScript array. -/
def tasksToJs (ts : List Task) : JsValue :=
  .array (ts.map Task.toJs)

/-- The state of the `App` component: the `lists` state and the `tasks` hook
(declared with key `tasks`, line 34). -/
structure AppState where
  lists : List BoardList
  hook : HookState (List Task)

/-- The flat task collection held in memory. -/
def AppState.tasks (st : AppState) : List Task := st.hook.storedValue

namespace App

/-- The three hardcoded lists (lines 28-32 and 40-44). -/
def defaultLists : List BoardList :=
  [{ id := 1, name := "Todo", tasks := [] },
   { id := 2, name := "In Progress", tasks := [] },
   { id := 3, name := "Done", tasks := [] }]

/-- The body of the `useEffect` on `[tasks]` (lines 36-53): the new `lists`. -/
def effect (lists : List BoardList) (tasks : List Task) : List BoardList :=
  if tasks.length = 0 then defaultLists
  else lists.map (fun list => { list with tasks := tasks.filter (fun task => task.listId = list.id) })

/-- The setter `setTasks` (line 34): the hook setter for key `tasks`, followed by the effect
that the change of `tasks` triggers. -/
def setTasks (value : SetStateAction (List Task)) (st : AppState) : AppState :=
  let hook1 := useLocalStorage.setStoredValueAndLocalStorage tasksToJs "tasks" value st.hook
  { lists := effect st.lists hook1.storedValue, hook := hook1 }

/-- The component after mounting with `loaded` as the initial `tasks` state:
`lists` starts as the defaults and the effect has run once. -/
def mount (loaded : List Task) (storage : Storage) : AppState :=
  { lists := effect defaultLists loaded,
    hook := { storedValue := loaded, storage := storage, console := [] } }

end App

/-- The operation `addTask(listId, taskName)` (lines 55-58); `now` is the value of `Date.now()`. -/
def addTask (now : Int) (listId : Int) (taskName : String) (st : AppState) : AppState :=
  let newTask : Task := { id := now, name := taskName, completed := false, listId := listId }
  App.setTasks (.updater (fun prevTasks => prevTasks ++ [newTask])) st

/-- The operation `deleteTask(listId, taskId)` (lines 60-62). -/
def deleteTask (_listId : Int) (taskId : Int) (st : AppState) : AppState :=
  App.setTasks (.updater (fun prevTasks => prevTasks.filter (fun task => task.id ≠ taskId))) st

/-- The operation `updateTask(listId, taskId, updatedTaskName)` (lines 64-70). -/
def updateTask (_listId : Int) (taskId : Int) (updatedTaskName : String) (st : AppState) :
    AppState :=
  App.setTasks (.updater (fun prevTasks =>
    prevTasks.map (fun task =>
      if task.id = taskId then { task with name := updatedTaskName } else task))) st

/-- The operation `transferTask(sourceListId, targetListId, taskId)` (lines 72-78). -/
def transferTask (_sourceListId : Int) (targetListId : Int) (taskId : Int) (st : AppState) :
    AppState :=
  App.setTasks (.updater (fun prevTasks =>
    prevTasks.map (fun task =>
      if task.id = taskId then { task with listId := targetListId } else task))) st

/-! ## Observations and drivers used in the statements -/

/-- The Tasks rendered under the list with id `l`: the `tasks` field of that list
record in the `lists` state (none when there is no such list). -/
def AppState.viewOf (st : AppState) (l : Int) : List Task :=
  match st.lists.find? (fun list => list.id = l) with
  | some list => list.tasks
  | none => []

/-- A sequence of `addTask` calls, each given as the clock reading at the call,
the list id and the name. -/
def addAll (calls : List (Int × Int × String)) (st : AppState) : AppState :=
  calls.foldl (fun s c => addTask c.1 c.2.1 c.2.2 s) st

/-- Spec-side description of the board: the three fixed lists, each holding the
Tasks of the flat collection whose `listId` is its id, in flat-collection order. -/
def specViews (ts : List Task) : List BoardList :=
  [{ id := 1, name := "Todo", tasks := ts.filter (fun t => t.listId = 1) },
   { id := 2, name := "In Progress", tasks := ts.filter (fun t => t.listId = 2) },
   { id := 3, name := "Done", tasks := ts.filter (fun t => t.listId = 3) }]

/-- The states the component can be in: after mounting with any loaded collection
on any store, after any of the four operations, and after the store itself was
changed from outside (filled up, cleared, made unavailable). -/
inductive Reachable : AppState → Prop where
  | mount (loaded : List Task) (storage : Storage) : Reachable (App.mount loaded storage)
  | addTask (now l : Int) (n : String) {st : AppState} :
      Reachable st → Reachable (addTask now l n st)
  | deleteTask (l i : Int) {st : AppState} :
      Reachable st → Reachable (deleteTask l i st)
  | updateTask (l i : Int) (n : String) {st : AppState} :
      Reachable st → Reachable (updateTask l i n st)
  | transferTask (src dst i : Int) {st : AppState} :
      Reachable st → Reachable (transferTask src dst i st)
  | storageChanged (storage : Storage) {st : AppState} :
      Reachable st → Reachable { st with hook := { st.hook with storage := storage } }

/-! ## Basic facts about the hook and the operations -/

section Basic

variable {α : Type}

theorem storedValue_setStoredValueAndLocalStorage (toJs : α → JsValue) (key : String)
    (value : SetStateAction α) (s : HookState α) :
    (useLocalStorage.setStoredValueAndLocalStorage toJs key value s).storedValue
      = value.apply s.storedValue := by
  unfold useLocalStorage.setStoredValueAndLocalStorage
    useLocalStorage.setStoredValueAndLocalStorage.tryBlock
  cases hset : Storage.setItem s.storage key (toDOMString (value.stringify toJs)) <;>
    simp [hset]

@[simp] theorem tasks_setTasks (value : SetStateAction (List Task)) (st : AppState) :
    (App.setTasks value st).tasks = value.apply st.tasks := by
  simp [App.setTasks, AppState.tasks, storedValue_setStoredValueAndLocalStorage]

@[simp] theorem lists_setTasks (value : SetStateAction (List Task)) (st : AppState) :
    (App.setTasks value st).lists = App.effect st.lists (value.apply st.tasks) := by
  simp [App.setTasks, AppState.tasks, storedValue_setStoredValueAndLocalStorage]

@[simp] theorem tasks_addTask (now l : Int) (n : String) (st : AppState) :
    (addTask now l n st).tasks
      = st.tasks ++ [{ id := now, name := n, completed := false, listId := l }] := by
  simp [addTask, SetStateAction.apply]

@[simp] theorem tasks_deleteTask (l i : Int) (st : AppState) :
    (deleteTask l i st).tasks = st.tasks.filter (fun task => task.id ≠ i) := by
  simp [deleteTask, SetStateAction.apply]

@[simp] theorem tasks_updateTask (l i : Int) (n : String) (st : AppState) :
    (updateTask l i n st).tasks
      = st.tasks.map (fun task => if task.id = i then { task with name := n } else task) := by
  simp [updateTask, SetStateAction.apply]

@[simp] theorem tasks_transferTask (src dst i : Int) (st : AppState) :
    (transferTask src dst i st).tasks
      = st.tasks.map (fun task => if task.id = i then { task with listId := dst } else task) := by
  simp [transferTask, SetStateAction.apply]

/-- Mapping a function that fixes every element of the list is the identity. -/
theorem map_eq_self_of_forall {β : Type} (f : β → β) (xs : List β)
    (h : ∀ x ∈ xs, f x = x) : xs.map f = xs := by
  induction xs with
  | nil => rfl
  | cons x rest ih =>
    simp only [List.map_cons]
    rw [h x (List.mem_cons_self x rest),
      ih (fun y hy => h y (List.mem_cons_of_mem x hy))]

end Basic

/-! ## The operations on the flat collection -/

/-- C3: `addTask(l, n)` yields a collection one longer, whose first `|ts|` elements are
`ts` in order and whose last element is the new Task with `listId = l`, `name = n`,
`completed = false` and the id read from the clock; the name is not validated, so the
empty name is stored as given. -/
theorem addTask_appends (now l : Int) (n : String) (st : AppState) :
    (addTask now l n st).tasks.length = st.tasks.length + 1
    ∧ (addTask now l n st).tasks.take st.tasks.length = st.tasks
    ∧ (addTask now l n st).tasks.getLast?
        = some { id := now, name := n, completed := false, listId := l }
    ∧ (addTask now l "" st).tasks.getLast?
        = some { id := now, name := "", completed := false, listId := l } := by
  simp

/-- C6: `deleteTask(l, i)` keeps exactly the Tasks whose id is not `i`, unchanged and in
their original relative order; the outcome is the same for every `l`; and when no Task
has id `i` the collection is unchanged. -/
theorem deleteTask_removes (l l₂ i : Int) (st : AppState) :
    (∀ t, t ∈ (deleteTask l i st).tasks ↔ t ∈ st.tasks ∧ t.id ≠ i)
    ∧ (deleteTask l i st).tasks = st.tasks.filter (fun t => t.id ≠ i)
    ∧ (deleteTask l i st).tasks.Sublist st.tasks
    ∧ deleteTask l i st = deleteTask l₂ i st
    ∧ ((∀ t ∈ st.tasks, t.id ≠ i) → (deleteTask l i st).tasks = st.tasks) := by
  refine ⟨?_, ?_, ?_, rfl, ?_⟩
  · intro t
    simp
  · simp
  · simp only [tasks_deleteTask]
    exact List.filter_sublist _
  · intro h
    simp only [tasks_deleteTask]
    exact List.filter_eq_self.mpr (fun t ht => by simpa using h t ht)

/-- C7: `updateTask(l, i, n)` keeps length and order; at every position the Task keeps
its id, completed flag and listId, takes the name `n` when its id is `i` and is unchanged
otherwise; the outcome is the same for every `l`; and when no Task has id `i` the
collection is unchanged. -/
theorem updateTask_renames (l l₂ i : Int) (n : String) (st : AppState) :
    (updateTask l i n st).tasks.length = st.tasks.length
    ∧ (∀ (k : Nat) (t : Task), st.tasks[k]? = some t →
        ∃ u : Task, (updateTask l i n st).tasks[k]? = some u
          ∧ u.id = t.id ∧ u.completed = t.completed ∧ u.listId = t.listId
          ∧ (t.id = i → u.name = n) ∧ (t.id ≠ i → u = t))
    ∧ updateTask l i n st = updateTask l₂ i n st
    ∧ ((∀ t ∈ st.tasks, t.id ≠ i) → (updateTask l i n st).tasks = st.tasks) := by
  refine ⟨by simp, ?_, rfl, ?_⟩
  · intro k t hk
    refine ⟨if t.id = i then { t with name := n } else t, ?_, ?_⟩
    · simp [hk]
    · by_cases h : t.id = i <;> simp [h]
  · intro h
    simp only [tasks_updateTask]
    exact map_eq_self_of_forall _ _ (fun t ht => by simp [h t ht])

/-- C9: after `deleteTask(l, i)` no Task has id `i`, and a further `deleteTask`,
`updateTask` or `transferTask` naming `i` (any list ids, any name) leaves the collection
as it is; in particular deleting twice is deleting once. -/
theorem deleteTask_idempotent (l l₂ src dst i : Int) (n : String) (st : AppState) :
    (∀ t ∈ (deleteTask l i st).tasks, t.id ≠ i)
    ∧ (deleteTask l₂ i (deleteTask l i st)).tasks = (deleteTask l i st).tasks
    ∧ (updateTask l₂ i n (deleteTask l i st)).tasks = (deleteTask l i st).tasks
    ∧ (transferTask src dst i (deleteTask l i st)).tasks = (deleteTask l i st).tasks := by
  have hno : ∀ t ∈ (deleteTask l i st).tasks, t.id ≠ i := by
    intro t ht
    simp only [tasks_deleteTask, List.mem_filter] at ht
    simpa using ht.2
  refine ⟨hno, ?_, ?_, ?_⟩
  · rw [tasks_deleteTask l₂]
    exact List.filter_eq_self.mpr (fun t ht => by simpa using hno t ht)
  · rw [tasks_updateTask]
    exact map_eq_self_of_forall _ _ (fun t ht => by simp [hno t ht])
  · rw [tasks_transferTask]
    exact map_eq_self_of_forall _ _ (fun t ht => by simp [hno t ht])

/-! ## Moving a Task between lists -/

/-- The view of list `l` after the effect has run on a non-empty collection. -/
theorem find_effect_tasks (lists : List BoardList) (ts : List Task) (l : Int)
    (hne : ts ≠ []) (hl : l ∈ lists.map BoardList.id) :
    ∃ list, (App.effect lists ts).find? (fun b => b.id = l) = some list
      ∧ list.tasks = ts.filter (fun t => t.listId = l) := by
  have hlen : ¬ ts.length = 0 := by
    intro h
    exact hne (List.length_eq_zero.mp h)
  simp only [App.effect, hlen, if_false]
  induction lists with
  | nil => simp at hl
  | cons b rest ih =>
    by_cases hb : b.id = l
    · refine ⟨{ b with tasks := ts.filter (fun t => t.listId = b.id) }, ?_, ?_⟩
      · simp [List.find?, hb]
      · simp [hb]
    · have hl2 : l ∈ rest.map BoardList.id := by
        simp only [List.map_cons, List.mem_cons] at hl
        rcases hl with h | h
        · exact absurd h.symm hb
        · exact h
      obtain ⟨list, hfind, htasks⟩ := ih hl2
      refine ⟨list, ?_, htasks⟩
      simp only [List.map_cons, List.find?]
      simpa [hb] using hfind

/-- Every Task in a list record produced by the effect carries that record's id. -/
theorem listId_of_mem_effect (lists : List BoardList) (ts : List Task) (b : BoardList)
    (hb : b ∈ App.effect lists ts) : ∀ t ∈ b.tasks, t ∈ ts ∧ t.listId = b.id := by
  unfold App.effect at hb
  split at hb
  · intro t ht
    simp only [App.defaultLists, List.mem_cons, List.mem_singleton, List.not_mem_nil,
      or_false] at hb
    rcases hb with h | h | h <;> subst h <;> simp at ht
  · simp only [List.mem_map] at hb
    obtain ⟨b0, _, rfl⟩ := hb
    intro t ht
    simpa using ht

/-- Every Task rendered under list `l` is in the flat collection with `listId = l`. -/
theorem listId_of_mem_viewOf (value : SetStateAction (List Task)) (st : AppState) (l : Int) :
    ∀ t ∈ (App.setTasks value st).viewOf l,
      t ∈ (App.setTasks value st).tasks ∧ t.listId = l := by
  intro t ht
  unfold AppState.viewOf at ht
  split at ht
  · rename_i list hfind
    have hmem := List.mem_of_find?_eq_some hfind
    have hid : list.id = l := by simpa using List.find?_some hfind
    rw [lists_setTasks] at hmem
    have := listId_of_mem_effect _ _ _ hmem t ht
    rw [tasks_setTasks]
    exact ⟨this.1, this.2.trans hid⟩
  · simp at ht

/-- C5 (amended): `transferTask(src, dst, i)` keeps length and order; at every position
the Task keeps id, name and completed flag, takes `listId = dst` when its id is `i` and is
unchanged otherwise; afterwards a Task with id `i` is rendered under `dst` whenever `dst`
is the id of one of the lists, and under `src` no Task with id `i` is rendered provided
`src ≠ dst`; the outcome is the same for every `src`; and when no Task has id `i` the
collection is unchanged. -/
theorem transferTask_moves (src src₂ dst i : Int) (st : AppState) :
    (transferTask src dst i st).tasks.length = st.tasks.length
    ∧ (∀ (k : Nat) (t : Task), st.tasks[k]? = some t →
        ∃ u : Task, (transferTask src dst i st).tasks[k]? = some u
          ∧ u.id = t.id ∧ u.name = t.name ∧ u.completed = t.completed
          ∧ (t.id = i → u.listId = dst) ∧ (t.id ≠ i → u = t))
    ∧ (dst ∈ st.lists.map BoardList.id → ∀ t ∈ st.tasks, t.id = i →
        { t with listId := dst } ∈ (transferTask src dst i st).viewOf dst)
    ∧ (src ≠ dst → ∀ t ∈ (transferTask src dst i st).viewOf src, t.id ≠ i)
    ∧ transferTask src dst i st = transferTask src₂ dst i st
    ∧ ((∀ t ∈ st.tasks, t.id ≠ i) → (transferTask src dst i st).tasks = st.tasks) := by
  refine ⟨by simp, ?_, ?_, ?_, rfl, ?_⟩
  · intro k t hk
    refine ⟨if t.id = i then { t with listId := dst } else t, ?_, ?_⟩
    · simp [hk]
    · by_cases h : t.id = i <;> simp [h]
  · intro hdst t ht hid
    have hmem : ({ t with listId := dst } : Task) ∈ (transferTask src dst i st).tasks := by
      rw [tasks_transferTask]
      exact List.mem_map.mpr ⟨t, ht, by simp [hid]⟩
    have hne : (transferTask src dst i st).tasks ≠ [] := List.ne_nil_of_mem hmem
    rw [tasks_transferTask] at hmem hne
    obtain ⟨list, hfind, htasks⟩ := find_effect_tasks st.lists _ dst hne hdst
    unfold AppState.viewOf
    simp only [transferTask, lists_setTasks, SetStateAction.apply]
    rw [hfind]
    simp only [htasks]
    exact List.mem_filter.mpr ⟨hmem, by simp⟩
  · intro hsd t ht hid
    have h := listId_of_mem_viewOf _ st src t ht
    rw [tasks_setTasks] at h
    simp only [SetStateAction.apply, List.mem_map] at h
    obtain ⟨⟨t0, _, ht0⟩, hl⟩ := h
    by_cases h0 : t0.id = i
    · simp only [h0, if_true] at ht0
      subst ht0
      exact hsd hl.symm
    · simp only [h0, if_false] at ht0
      subst ht0
      exact h0 hid
  · intro h
    simp only [tasks_transferTask]
    exact map_eq_self_of_forall _ _ (fun t ht => by simp [h t ht])

/-- C5 (as stated) fails when source and target list coincide: after
`transferTask(1, 1, 7)` the Task with id 7 is still rendered under the source list 1. -/
theorem transferTask_same_list_stays :
    ¬ (∀ t ∈ (transferTask 1 1 7
          (App.mount [{ id := 7, name := "a", completed := false, listId := 1 }]
            { items := [], accessible := true, writable := true })).viewOf 1,
        t.id ≠ 7) := by
  decide

/-- C5 (amended) at a concrete board: moving Task 7 from list 1 to list 2. -/
theorem transferTask_moves_witness :
    ((1 : Int) ≠ 2)
    ∧ ({ id := 7, name := "a", completed := false, listId := 2 } : Task) ∈
        (transferTask 1 2 7
          (App.mount [{ id := 7, name := "a", completed := false, listId := 1 }]
            { items := [], accessible := true, writable := true })).viewOf 2
    ∧ (∀ t ∈ (transferTask 1 2 7
          (App.mount [{ id := 7, name := "a", completed := false, listId := 1 }]
            { items := [], accessible := true, writable := true })).viewOf 1,
        t.id ≠ 7) :=
  have h := transferTask_moves 1 1 2 7
    (App.mount [{ id := 7, name := "a", completed := false, listId := 1 }]
      { items := [], accessible := true, writable := true })
  ⟨by decide,
    h.2.2.1 (by decide) { id := 7, name := "a", completed := false, listId := 1 }
      (by decide) rfl,
    h.2.2.2.1 (by decide)⟩

/-! ## Sequences of `addTask` calls -/

theorem tasks_addAll (calls : List (Int × Int × String)) (st : AppState) :
    (addAll calls st).tasks
      = st.tasks ++ calls.map
          (fun c => { id := c.1, name := c.2.2, completed := false, listId := c.2.1 }) := by
  induction calls generalizing st with
  | nil => simp [addAll]
  | cons c rest ih =>
    have hstep : addAll (c :: rest) st = addAll rest (addTask c.1 c.2.1 c.2.2 st) := rfl
    rw [hstep, ih, tasks_addTask]
    simp

/-- C4 (as stated) fails: two `addTask` calls that read the same clock value give two
Tasks with the same id. -/
theorem addTask_same_clock_duplicate_id :
    ¬ ((addAll [(1000, 1, "a"), (1000, 2, "b")]
          (App.mount [] { items := [], accessible := true, writable := true })).tasks.map
        Task.id).Nodup := by
  decide

/-- C4 (amended): every sequence of `addTask` calls from the empty collection yields
exactly one Task per call, in call order, carrying the call's clock reading, name and
list id, whatever the clock readings are; the ids of the Tasks are the clock readings of
the calls, so they are pairwise distinct provided the clock readings of the calls are. -/
theorem addAll_one_task_per_call (calls : List (Int × Int × String)) (storage : Storage) :
    (addAll calls (App.mount [] storage)).tasks.length = calls.length
    ∧ (∀ (k : Nat) (c : Int × Int × String), calls[k]? = some c →
        (addAll calls (App.mount [] storage)).tasks[k]?
          = some { id := c.1, name := c.2.2, completed := false, listId := c.2.1 })
    ∧ (addAll calls (App.mount [] storage)).tasks.map Task.id = calls.map (fun c => c.1)
    ∧ ((calls.map (fun c => c.1)).Nodup →
        ((addAll calls (App.mount [] storage)).tasks.map Task.id).Nodup) := by
  have htasks : (App.mount [] storage).tasks = [] := rfl
  have hids : (addAll calls (App.mount [] storage)).tasks.map Task.id
      = calls.map (fun c => c.1) := by
    rw [tasks_addAll, htasks]
    simp [List.map_map, Function.comp_def]
  refine ⟨?_, ?_, hids, ?_⟩
  · rw [tasks_addAll, htasks]
    simp
  · intro k c hk
    rw [tasks_addAll, htasks]
    simp [hk]
  · intro hclock
    rw [hids]
    exact hclock

/-- C4 (amended) at concrete calls: two calls reading the same clock value still give two
Tasks, and two calls reading different clock values give two distinct ids. -/
theorem addAll_one_task_per_call_witness :
    (addAll [(1000, 1, "a"), (1000, 2, "b")]
        (App.mount [] { items := [], accessible := true, writable := true })).tasks.length = 2
    ∧ ((addAll [(1000, 1, "a"), (1001, 2, "b")]
        (App.mount [] { items := [], accessible := true, writable := true })).tasks.map
      Task.id).Nodup :=
  ⟨(addAll_one_task_per_call [(1000, 1, "a"), (1000, 2, "b")]
      { items := [], accessible := true, writable := true }).1,
    (addAll_one_task_per_call [(1000, 1, "a"), (1001, 2, "b")]
      { items := [], accessible := true, writable := true }).2.2.2 (by decide)⟩

/-! ## The derived views follow the flat collection -/

theorem effect_specViews (ts₀ ts : List Task) :
    App.effect (specViews ts₀) ts = specViews ts := by
  unfold App.effect
  split
  · rename_i h
    have hnil : ts = [] := List.length_eq_zero.mp h
    subst hnil
    rfl
  · rfl

theorem lists_eq_specViews_of_reachable {st : AppState} (h : Reachable st) :
    st.lists = specViews st.tasks := by
  induction h with
  | mount loaded storage => exact effect_specViews [] loaded
  | addTask now l n _ ih => rw [addTask, lists_setTasks, tasks_setTasks, ih, effect_specViews]
  | deleteTask l i _ ih => rw [deleteTask, lists_setTasks, tasks_setTasks, ih, effect_specViews]
  | updateTask l i n _ ih => rw [updateTask, lists_setTasks, tasks_setTasks, ih, effect_specViews]
  | transferTask src dst i _ ih =>
    rw [transferTask, lists_setTasks, tasks_setTasks, ih, effect_specViews]
  | storageChanged storage _ ih => exact ih

/-- C8: in every state the component reaches (after mounting with any loaded collection
and after every `addTask`, `deleteTask`, `updateTask`, `transferTask`) the `lists` state
is the three lists 1 Todo, 2 In Progress, 3 Done, each holding exactly the Tasks of the
flat collection with its id as `listId`, in flat-collection order; so a Task is in the
view of a list exactly when that list is its assigned one, and a Task assigned to list
1, 2 or 3 is in the view of that list. -/
theorem lists_follow_tasks (st : AppState) (h : Reachable st) :
    st.lists = specViews st.tasks
    ∧ st.lists.map (fun b => (b.id, b.name)) = [(1, "Todo"), (2, "In Progress"), (3, "Done")]
    ∧ (∀ l ∈ [(1 : Int), 2, 3], st.viewOf l = st.tasks.filter (fun t => t.listId = l))
    ∧ (∀ t ∈ st.tasks, ∀ b ∈ st.lists, (t ∈ b.tasks ↔ b.id = t.listId))
    ∧ (∀ t ∈ st.tasks, t.listId ∈ [(1 : Int), 2, 3] →
        ∃ b ∈ st.lists, b.id = t.listId ∧ t ∈ b.tasks) := by
  have hl := lists_eq_specViews_of_reachable h
  refine ⟨hl, ?_, ?_, ?_, ?_⟩
  · rw [hl]
    rfl
  · intro l hmem
    unfold AppState.viewOf
    rw [hl]
    simp only [List.mem_cons, List.mem_singleton, List.not_mem_nil, or_false] at hmem
    rcases hmem with rfl | rfl | rfl <;> simp [specViews, List.find?]
  · intro t ht b hb
    rw [hl] at hb
    simp only [specViews, List.mem_cons, List.mem_singleton, List.not_mem_nil,
      or_false] at hb
    rcases hb with rfl | rfl | rfl <;> simp [ht, eq_comm]
  · intro t ht hlist
    rw [hl]
    simp only [List.mem_cons, List.mem_singleton, List.not_mem_nil, or_false] at hlist
    rcases hlist with h1 | h1 | h1 <;> simp [specViews, ht, h1]

/-- C8 at the board reached by mounting on an empty store, adding a Task to list 1 and
moving it to list 2. -/
theorem lists_follow_tasks_witness :
    (transferTask 1 2 100 (addTask 100 1 "write spec"
        (App.mount [] { items := [], accessible := true, writable := true }))).lists
      = [{ id := 1, name := "Todo", tasks := [] },
         { id := 2, name := "In Progress",
           tasks := [{ id := 100, name := "write spec", completed := false, listId := 2 }] },
         { id := 3, name := "Done", tasks := [] }] :=
  (lists_follow_tasks _
    (Reachable.transferTask 1 2 100
      (Reachable.addTask 100 1 "write spec" (Reachable.mount [] _)))).1.trans (by decide)

/-! ## Loading: the initial state of the hook -/

/-- C2 (as stated) fails for stored text that parses but is not a sequence of Task
records: with the text `42` under the key the loader returns the number 42, not the
default `[]`. -/
theorem init_returns_parsed_value_of_any_shape :
    useLocalStorage.init { items := [("tasks", "42")], accessible := true, writable := true }
        "tasks" (.array []) = JsValue.int 42
    ∧ useLocalStorage.init { items := [("tasks", "42")], accessible := true, writable := true }
        "tasks" (.array []) ≠ JsValue.array [] := by
  have h : useLocalStorage.init
      { items := [("tasks", "42")], accessible := true, writable := true }
      "tasks" (.array []) = JsValue.int 42 := rfl
  refine ⟨h, ?_⟩
  rw [h]
  intro hc
  cases hc

/-- C2 (amended): the loader always returns a value (it has no failing outcome), and that
value is `initialValue` when reading the store raises, when the key is absent, when the
stored text is empty, and when the stored text fails to parse; stored text that parses is
returned as parsed, whatever its shape. With `initialValue = []` the first four cases
give the empty sequence. -/
theorem init_falls_back (storage : Storage) (key : String) (initialValue : JsValue) :
    (∀ e, storage.getItem key = .error e →
        useLocalStorage.init storage key initialValue = initialValue)
    ∧ (storage.getItem key = .ok none →
        useLocalStorage.init storage key initialValue = initialValue)
    ∧ (storage.getItem key = .ok (some "") →
        useLocalStorage.init storage key initialValue = initialValue)
    ∧ (∀ item e, storage.getItem key = .ok (some item) → JSON.parse item = .error e →
        useLocalStorage.init storage key initialValue = initialValue)
    ∧ (∀ item v, storage.getItem key = .ok (some item) → item ≠ "" →
        JSON.parse item = .ok v →
        useLocalStorage.init storage key initialValue = v)
    ∧ ((storage.getItem key = .ok none
          ∨ (∃ e, storage.getItem key = .error e)
          ∨ (∃ item e, storage.getItem key = .ok (some item) ∧ JSON.parse item = .error e)) →
        useLocalStorage.init storage key (.array []) = .array []) := by
  refine ⟨?_, ?_, ?_, ?_, ?_, ?_⟩
  · intro e h
    simp [useLocalStorage.init, h]
  · intro h
    simp [useLocalStorage.init, h]
  · intro h
    simp [useLocalStorage.init, h]
  · intro item e h hp
    simp only [useLocalStorage.init, h, hp]
    split <;> rfl
  · intro item v h hne hp
    simp [useLocalStorage.init, h, hp, hne]
  · rintro (h | ⟨e, h⟩ | ⟨item, e, h, hp⟩)
    · simp [useLocalStorage.init, h]
    · simp [useLocalStorage.init, h]
    · simp only [useLocalStorage.init, h, hp]
      split <;> rfl

/-- C2 (amended) at concrete stores: a missing key, and the corrupt text `undefined`. -/
theorem init_falls_back_witness :
    useLocalStorage.init { items := [], accessible := true, writable := true } "tasks"
        (.array []) = .array []
    ∧ useLocalStorage.init
        { items := [("tasks", "undefined")], accessible := true, writable := true } "tasks"
        (.array []) = .array [] :=
  ⟨(init_falls_back { items := [], accessible := true, writable := true } "tasks"
      (.array [])).2.1 rfl,
    (init_falls_back { items := [("tasks", "undefined")], accessible := true, writable := true }
      "tasks" (.array [])).2.2.2.1 "undefined" .syntaxError rfl rfl⟩

/-! ## Saving: the setter of the hook -/

/-- C10: when `setItem` raises during a save, the setter still completes normally: the
exception raised inside the `try` block is caught and logged, the in-memory value is the
new one (the value passed, or the updater applied to the previous value), and the store
is left as it was. -/
theorem save_failure_keeps_new_value {α : Type} (toJs : α → JsValue) (key : String)
    (value : SetStateAction α) (s : HookState α) (e : JsError)
    (hfail : s.storage.setItem key (toDOMString (value.stringify toJs)) = .error e) :
    (useLocalStorage.setStoredValueAndLocalStorage.tryBlock toJs key value s).2 = some e
    ∧ (useLocalStorage.setStoredValueAndLocalStorage toJs key value s).storedValue
        = value.apply s.storedValue
    ∧ (∀ v, value = .value v →
        (useLocalStorage.setStoredValueAndLocalStorage toJs key value s).storedValue = v)
    ∧ (useLocalStorage.setStoredValueAndLocalStorage toJs key value s).storage = s.storage
    ∧ (useLocalStorage.setStoredValueAndLocalStorage toJs key value s).console
        = s.console ++ [("Error saving to localStorage:", e)] := by
  have hs := storedValue_setStoredValueAndLocalStorage toJs key value s
  refine ⟨?_, hs, ?_, ?_, ?_⟩
  · simp [useLocalStorage.setStoredValueAndLocalStorage.tryBlock, hfail]
  · intro v hv
    rw [hs, hv]
    rfl
  · simp [useLocalStorage.setStoredValueAndLocalStorage,
      useLocalStorage.setStoredValueAndLocalStorage.tryBlock, hfail]
  · simp [useLocalStorage.setStoredValueAndLocalStorage,
      useLocalStorage.setStoredValueAndLocalStorage.tryBlock, hfail]

/-- C10 at a full store: saving the one-Task collection over the empty one. -/
theorem save_failure_keeps_new_value_witness :
    (useLocalStorage.setStoredValueAndLocalStorage tasksToJs "tasks"
        (.value [{ id := 5, name := "a", completed := false, listId := 1 }])
        { storedValue := [],
          storage := { items := [], accessible := true, writable := false },
          console := [] }).storedValue
      = [{ id := 5, name := "a", completed := false, listId := 1 }] :=
  (save_failure_keeps_new_value tasksToJs "tasks"
    (.value [{ id := 5, name := "a", completed := false, listId := 1 }])
    { storedValue := [],
      storage := { items := [], accessible := true, writable := false },
      console := [] }
    .quotaExceededError rfl).2.2.1 _ rfl

/-! ## Write-through persistence -/

theorem lookup_setEntry (key text : String) (items : List (String × String)) :
    (Storage.setEntry key text items).lookup key = some text := by
  induction items with
  | nil => simp [Storage.setEntry, List.lookup]
  | cons kv rest ih =>
    obtain ⟨k, v⟩ := kv
    by_cases hk : k = key
    · simp [Storage.setEntry, hk, List.lookup]
    · have hne : (key == k) = false := by
        simpa using fun h : key = k => hk h.symm
      simp [Storage.setEntry, hk, List.lookup, hne, ih]

theorem parse_undefined : JSON.parse "undefined" = .error .syntaxError := by
  rfl

/-- What a call of `setTasks` with an updater function leaves in a writable store. -/
theorem getItem_setTasks_updater (f : List Task → List Task) (st : AppState)
    (hr : st.hook.storage.accessible = true) (hw : st.hook.storage.writable = true) :
    (App.setTasks (.updater f) st).hook.storage.getItem "tasks" = .ok (some "undefined") := by
  simp [App.setTasks, useLocalStorage.setStoredValueAndLocalStorage,
    useLocalStorage.setStoredValueAndLocalStorage.tryBlock, Storage.setItem, Storage.getItem,
    hr, hw, SetStateAction.stringify, toDOMString, lookup_setEntry]

theorem init_after_setTasks_updater (f : List Task → List Task) (st : AppState)
    (hr : st.hook.storage.accessible = true) (hw : st.hook.storage.writable = true) :
    useLocalStorage.init (App.setTasks (.updater f) st).hook.storage "tasks" (.array [])
      = .array [] := by
  have h := getItem_setTasks_updater f st hr hw
  simp only [useLocalStorage.init, h, parse_undefined]
  split <;> rfl

/-- The setter does persist a collection handed over as a plain value: saved that way,
the one-Task collection is read back by the loader. -/
theorem save_plain_value_then_init :
    useLocalStorage.init
        (useLocalStorage.setStoredValueAndLocalStorage tasksToJs "tasks"
          (.value [{ id := 1700000000000, name := "write spec", completed := false, listId := 1 }])
          { storedValue := [],
            storage := { items := [], accessible := true, writable := true },
            console := [] }).storage
        "tasks" (.array [])
      = tasksToJs
          [{ id := 1700000000000, name := "write spec", completed := false, listId := 1 }] := by
  rfl

/-- C1 (the code does not do this): on an accessible, writable store holding anything, each
of `addTask`, `deleteTask`, `updateTask`, `transferTask` writes the text `undefined`
under the key `tasks` (the serialization of the updater function handed to the setter),
not the serialization of the resulting collection; a later load with default `[]`
returns `[]`, which after `addTask` differs from the collection held in memory. -/
theorem mutations_store_undefined (ts : List Task) (items : List (String × String))
    (now l dst i : Int) (n : String) :
    (∀ st ∈ [addTask now l n (App.mount ts { items := items, accessible := true, writable := true }),
             deleteTask l i (App.mount ts { items := items, accessible := true, writable := true }),
             updateTask l i n (App.mount ts { items := items, accessible := true, writable := true }),
             transferTask l dst i
               (App.mount ts { items := items, accessible := true, writable := true })],
        st.hook.storage.getItem "tasks" = .ok (some "undefined")
        ∧ useLocalStorage.init st.hook.storage "tasks" (.array []) = .array [])
    ∧ useLocalStorage.init
          (addTask now l n
            (App.mount ts { items := items, accessible := true, writable := true })).hook.storage
          "tasks" (.array [])
        ≠ tasksToJs
          (addTask now l n
            (App.mount ts { items := items, accessible := true, writable := true })).tasks := by
  constructor
  · intro st hst
    simp only [List.mem_cons, List.mem_singleton, List.not_mem_nil, or_false] at hst
    rcases hst with rfl | rfl | rfl | rfl <;>
      exact ⟨getItem_setTasks_updater _ _ rfl rfl, init_after_setTasks_updater _ _ rfl rfl⟩
  · rw [addTask, init_after_setTasks_updater _ _ rfl rfl, tasks_setTasks]
    simp [tasksToJs, SetStateAction.apply]

end Todo
